import Mathlib

/-!
Shallow embedding of `closure/goog/i18n/messages.js`: the `declareIcuTemplate`
message-declaration helper together with its uncompiled-mode validation of the
template string and the options bag.

Conventions of the embedding:
* JavaScript runtime values reaching the options bag are modelled by `JSValue`
  (strings, numbers as integers, booleans, `null`, `undefined`, object
  literals as association lists in insertion order).
* `goog.asserts.assert` failures are modelled by returning
  `some (e : ValidationError)`; success returns `none`.  `ValidationError`'s
  constructors carry exactly the data interpolated into each assert message.
* The two regular expressions are modelled by structural scanners over
  `List Char`.  The global regex `ICU_PLACEHOLDER_GLOBAL_RE` carries the
  mutable `lastIndex` field across `exec` calls; validation therefore threads
  an explicit `lastIndex : Nat` state, and a `null` result of `exec` resets it
  to `0`, exactly as JavaScript does for a regex with the `g` flag.
* The process-wide `COMPILED` flag is passed as an explicit boolean.
-/

namespace Messages

/-- JavaScript runtime values, restricted to the shapes that can reach the
`declareIcuTemplate` options bag in this module. -/
inductive JSValue where
  | str (s : String)
  | num (n : Int)
  | boolean (b : Bool)
  | nullV
  | undefinedV
  | obj (fields : List (String × JSValue))

/-- JavaScript truthiness of a value: the empty string, `0`, `false`, `null`
and `undefined` are falsy, every object is truthy. -/
def JSValue.truthy : JSValue → Bool
  | .str s => !(s == "")
  | .num n => !(n == 0)
  | .boolean b => b
  | .nullV => false
  | .undefinedV => false
  | .obj _ => true

/-- Model of the JavaScript test `typeof v == 'string'`. -/
def JSValue.isString : JSValue → Bool
  | .str _ => true
  | _ => false

/-- Options bag passed to `declareIcuTemplate`: a JavaScript object literal,
kept as its fields in insertion order. -/
structure IcuTemplateOptions where
  fields : List (String × JSValue)

/-- Reading a property of the options object: the first field with the given
name, or `undefined` when the object has no such field. -/
def IcuTemplateOptions.get (o : IcuTemplateOptions) (k : String) : JSValue :=
  match o.fields.lookup k with
  | some v => v
  | none => JSValue.undefinedV

/-- Model of `Object.keys(options)`: the field names in insertion order. -/
def IcuTemplateOptions.keys (o : IcuTemplateOptions) : List String :=
  o.fields.map Prod.fst

/-- Validation failures: one constructor per distinct assert message in
`messages.js`, carrying the values interpolated into that message. -/
inductive ValidationError where
  | closureStylePlaceholder (placeholder : String) (template : String)
  | noDescription
  | invalidDescription (value : JSValue)
  | invalidMeaning (value : JSValue)
  | invalidMapObject (mapName : String) (value : JSValue)
  | unknownPlaceholder (mapName : String) (placeholderName : String)
  | invalidMapValue (mapName : String) (placeholderName : String) (value : JSValue)
  | unknownOption (optionName : String)

/-- Character class `[a-z_]` under the regex `i` flag: an ASCII letter or an
underscore.  First character of an ICU placeholder name. -/
def isIcuNameStart (c : Char) : Bool :=
  c.isAlpha || c == '_'

/-- Character class `\w`: an ASCII letter, an ASCII digit or an underscore.
Continuation characters of an ICU placeholder name. -/
def isIcuWordChar (c : Char) : Bool :=
  c.isAlpha || c.isDigit || c == '_'

/-- A string matching `[A-Za-z_][A-Za-z0-9_]*`, the full name pattern of
`ICU_PLACEHOLDER_GLOBAL_RE`'s capturing group. -/
def isValidIcuName (s : String) : Bool :=
  match s.data with
  | [] => false
  | c :: cs => isIcuNameStart c && cs.all isIcuWordChar

/-- Splits off the maximal leading run of `\w` characters. -/
def takeIcuWord : List Char → List Char × List Char
  | [] => ([], [])
  | c :: rest =>
    if isIcuWordChar c then
      let (w, r) := takeIcuWord rest
      (c :: w, r)
    else ([], c :: rest)

/-- After an opening `{`, tries to match `[a-z_]\w*}` (the remainder of one
ICU placeholder).  On success returns the captured name and the characters
after the closing `}`. -/
def parseIcuName (cs : List Char) : Option (String × List Char) :=
  match cs with
  | [] => none
  | c :: rest =>
    if isIcuNameStart c then
      let (w, r) := takeIcuWord rest
      match r with
      | '}' :: r2 => some (String.mk (c :: w), r2)
      | _ => none
    else none

/-- Leftmost match of `ICU_PLACEHOLDER_GLOBAL_RE` in the given characters:
returns the captured placeholder name and the characters after the match. -/
def icuFindMatch : List Char → Option (String × List Char)
  | [] => none
  | c :: rest =>
    if c = '{' then
      match parseIcuName rest with
      | some (n, r) => some (n, r)
      | none => icuFindMatch rest
    else icuFindMatch rest

/-- One call of `ICU_PLACEHOLDER_GLOBAL_RE.exec(s)` with the regex's current
`lastIndex`: searches from that index; on a match returns the captured name
and the updated `lastIndex` (the index just past the match). -/
def icuExec (s : List Char) (lastIndex : Nat) : Option (String × Nat) :=
  match icuFindMatch (s.drop lastIndex) with
  | none => none
  | some (n, rest) => some (n, s.length - rest.length)

/-- The `while (match = ICU_PLACEHOLDER_GLOBAL_RE.exec(icuTemplate))` loop of
`gatherIcuPlaceholderNames`, with explicit fuel (any fuel above the template
length is sufficient).  Returns the names in match order together with the
regex's final `lastIndex`; a `null` `exec` result resets `lastIndex` to 0. -/
def gatherIcuFuel : Nat → List Char → Nat → List String × Nat
  | 0, _, _ => ([], 0)
  | fuel + 1, s, i =>
    match icuExec s i with
    | none => ([], 0)
    | some (n, j) =>
      let (ns, f) := gatherIcuFuel fuel s j
      (n :: ns, f)

/-- Model of `gatherIcuPlaceholderNames(icuTemplate)`: collects the captured
names of all matches of the module-level global regex, starting from its
current `lastIndex`, and returns them with the regex's final `lastIndex`.
Membership in the returned list is the model of membership in the `Set`
built by the source. -/
def gatherIcuPlaceholderNames (icuTemplate : String) (lastIndex : Nat) :
    List String × Nat :=
  gatherIcuFuel (icuTemplate.data.length + 1) icuTemplate.data lastIndex

/-- Splits off the maximal leading run of `[^}]` characters. -/
def takeNonBrace : List Char → List Char × List Char
  | [] => ([], [])
  | c :: rest =>
    if c = '}' then ([], c :: rest)
    else
      let (w, r) := takeNonBrace rest
      (c :: w, r)

/-- After an opening `{`, tries to match the remainder `\$([^}]+)}` of one
closure-style placeholder, returning the whole matched substring. -/
def closureMatchAt (cs : List Char) : Option String :=
  match cs with
  | [] => none
  | d :: rest2 =>
    if d = '$' then
      let (content, r) := takeNonBrace rest2
      match content, r with
      | _ :: _, rb :: _ =>
        if rb = '}' then some (String.mk ('{' :: '$' :: (content ++ ['}'])))
        else none
      | _, _ => none
    else none

/-- Leftmost match of `CLOSURE_PLACEHOLDER_RE`, i.e. `/\{\$([^}]+)}/`, in the
given characters: returns the whole matched substring (`match[0]`). -/
def closureExec : List Char → Option String
  | [] => none
  | c :: rest =>
    if c = '{' then
      match closureMatchAt rest with
      | some m => some m
      | none => closureExec rest
    else closureExec rest

/-- Model of `assertNoClosureStylePlaceholdersInIcuTemplate(icuTemplate)`:
fails naming the matched closure-style placeholder and the full template
when `CLOSURE_PLACEHOLDER_RE` matches. -/
def assertNoClosureStylePlaceholdersInIcuTemplate (icuTemplate : String) :
    Option ValidationError :=
  match closureExec icuTemplate.data with
  | some m => some (.closureStylePlaceholder m icuTemplate)
  | none => none

/-- The `VALID_OPTIONS` set of recognized option field names. -/
def VALID_OPTIONS : List String :=
  ["description", "meaning", "example", "original_code"]

/-- Model of `assertValidPlaceholderMap(mapName, placeholderMap,
allPlaceholderNames)`: for each key in order, first asserts membership in the
placeholder-name set, then asserts the value is a string. -/
def assertValidPlaceholderMap (mapName : String)
    (placeholderMap : List (String × JSValue))
    (allPlaceholderNames : List String) : Option ValidationError :=
  match placeholderMap with
  | [] => none
  | (placeholderName, placeholderValue) :: rest =>
    if placeholderName ∈ allPlaceholderNames then
      if placeholderValue.isString then
        assertValidPlaceholderMap mapName rest allPlaceholderNames
      else some (.invalidMapValue mapName placeholderName placeholderValue)
    else some (.unknownPlaceholder mapName placeholderName)

/-- The two description asserts: `assert(description, 'no description
supplied')` then `assert(typeof description == 'string', ...)`. -/
def checkDescription (options : IcuTemplateOptions) : Option ValidationError :=
  if !(options.get "description").truthy then some .noDescription
  else if !(options.get "description").isString then
    some (.invalidDescription (options.get "description"))
  else none

/-- The meaning assert: `assert(!meaning || typeof meaning == 'string', ...)`. -/
def checkMeaning (options : IcuTemplateOptions) : Option ValidationError :=
  if !(options.get "meaning").truthy || (options.get "meaning").isString then none
  else some (.invalidMeaning (options.get "meaning"))

/-- The `if (map) { assert(typeof map == 'object', ...);
assertValidPlaceholderMap(...) }` block, for `example` or `original_code`. -/
def checkPlaceholderMapOption (mapName : String) (options : IcuTemplateOptions)
    (icuPlaceholderNames : List String) : Option ValidationError :=
  if !(options.get mapName).truthy then none
  else
    match options.get mapName with
    | .obj fields => assertValidPlaceholderMap mapName fields icuPlaceholderNames
    | v => some (.invalidMapObject mapName v)

/-- The final `for (const propName of Object.keys(options))` loop: fails on
the first field name outside `VALID_OPTIONS`. -/
def checkUnknownOptions (options : IcuTemplateOptions) : Option ValidationError :=
  match options.keys.find? (fun k => decide (¬ k ∈ VALID_OPTIONS)) with
  | some k => some (.unknownOption k)
  | none => none

/-- The straight-line sequence of option asserts that runs after the
placeholder names have been gathered: description, meaning, the two
placeholder maps, then the unknown-field loop.  Returns the first failure. -/
def checkOptions (options : IcuTemplateOptions)
    (icuPlaceholderNames : List String) : Option ValidationError :=
  match checkDescription options with
  | some e => some e
  | none =>
    match checkMeaning options with
    | some e => some e
    | none =>
      match checkPlaceholderMapOption "example" options icuPlaceholderNames with
      | some e => some e
      | none =>
        match checkPlaceholderMapOption "original_code" options icuPlaceholderNames with
        | some e => some e
        | none => checkUnknownOptions options

/-- Model of `assertDeclareIcuTemplateParametersAreValid(templateString,
options)`.  `compiled` is the process-wide `COMPILED` flag; `lastIndex` is the
current state of the module-level global regex, returned updated (the
closure-placeholder regex has no `g` flag and never touches it; gathering
always runs before any option assert, so a failing option assert still leaves
the regex state the gather loop produced). -/
def assertDeclareIcuTemplateParametersAreValid (compiled : Bool)
    (templateString : String) (options : IcuTemplateOptions)
    (lastIndex : Nat) : Option ValidationError × Nat :=
  if compiled then (none, lastIndex)
  else
    match assertNoClosureStylePlaceholdersInIcuTemplate templateString with
    | some e => (some e, lastIndex)
    | none =>
      let gathered := gatherIcuPlaceholderNames templateString lastIndex
      (checkOptions options gathered.1, gathered.2)

/-- Model of `declareIcuTemplate(templateString, options)`: validates, then
returns the template string unchanged; a validation failure is the thrown
assertion error. -/
def declareIcuTemplate (compiled : Bool) (templateString : String)
    (options : IcuTemplateOptions) (lastIndex : Nat) :
    Except ValidationError String × Nat :=
  match assertDeclareIcuTemplateParametersAreValid compiled templateString options lastIndex with
  | (some e, st) => (.error e, st)
  | (none, st) => (.ok templateString, st)

/-- Calling `declareIcuTemplate` (uncompiled) repeatedly on the same pair,
threading the module-level regex state from each call into the next; call 0
starts from the module's initial `lastIndex` of 0. -/
def repeatedDeclare (templateString : String) (options : IcuTemplateOptions) :
    Nat → Except ValidationError String × Nat
  | 0 => declareIcuTemplate false templateString options 0
  | n + 1 =>
    declareIcuTemplate false templateString options
      (repeatedDeclare templateString options n).2

/-! ### Helper lemmas: strings, character classes, and the word scanner -/

lemma mk_data_eq (s : String) : String.mk s.data = s := by
  cases s
  rfl

lemma data_injective {a b : String} (h : a.data = b.data) : a = b := by
  rw [← mk_data_eq a, ← mk_data_eq b, h]

lemma nameStart_isWord {c : Char} (h : isIcuNameStart c = true) :
    isIcuWordChar c = true := by
  simp only [isIcuNameStart, Bool.or_eq_true] at h
  simp only [isIcuWordChar, Bool.or_eq_true]
  rcases h with h | h
  · exact Or.inl (Or.inl h)
  · exact Or.inr h

lemma word_ne_lbrace {c : Char} (h : isIcuWordChar c = true) : c ≠ '{' := by
  rintro rfl
  exact absurd h (by decide)

lemma word_ne_rbrace {c : Char} (h : isIcuWordChar c = true) : c ≠ '}' := by
  rintro rfl
  exact absurd h (by decide)

lemma valid_name_shape {n : String} (h : isValidIcuName n = true) :
    ∃ c cs, n.data = c :: cs ∧ isIcuNameStart c = true ∧
      ∀ x ∈ cs, isIcuWordChar x = true := by
  rcases hd : n.data with _ | ⟨c, cs⟩
  · rw [isValidIcuName, hd] at h
    cases h
  · rw [isValidIcuName, hd] at h
    simp only [Bool.and_eq_true, List.all_eq_true] at h
    exact ⟨c, cs, rfl, h.1, fun x hx => h.2 x hx⟩

lemma valid_name_all_word {n : String} (h : isValidIcuName n = true) :
    ∀ x ∈ n.data, isIcuWordChar x = true := by
  obtain ⟨c, cs, hd, hc, hcs⟩ := valid_name_shape h
  rw [hd]
  intro x hx
  rcases List.mem_cons.mp hx with rfl | hx
  · exact nameStart_isWord hc
  · exact hcs x hx

lemma valid_name_ne_nil {n : String} (h : isValidIcuName n = true) :
    n.data ≠ [] := by
  obtain ⟨c, cs, hd, -, -⟩ := valid_name_shape h
  rw [hd]
  exact List.cons_ne_nil c cs

lemma valid_no_lbrace {n : String} (h : isValidIcuName n = true) :
    '{' ∉ n.data := by
  intro hm
  exact word_ne_lbrace (valid_name_all_word h _ hm) rfl

lemma valid_no_rbrace {n : String} (h : isValidIcuName n = true) :
    '}' ∉ n.data := by
  intro hm
  exact word_ne_rbrace (valid_name_all_word h _ hm) rfl

lemma takeIcuWord_sound :
    ∀ cs w r, takeIcuWord cs = (w, r) →
      cs = w ++ r ∧ (∀ c ∈ w, isIcuWordChar c = true) ∧
        (r = [] ∨ ∃ x r2, r = x :: r2 ∧ isIcuWordChar x = false) := by
  intro cs
  induction cs with
  | nil =>
    intro w r h
    simp only [takeIcuWord, Prod.mk.injEq] at h
    obtain ⟨rfl, rfl⟩ := h
    exact ⟨rfl, by simp, Or.inl rfl⟩
  | cons c rest ih =>
    intro w r h
    rw [takeIcuWord] at h
    by_cases hc : isIcuWordChar c
    · rw [if_pos hc] at h
      obtain ⟨w1, r1, htw⟩ : ∃ p q, takeIcuWord rest = (p, q) :=
        ⟨(takeIcuWord rest).1, (takeIcuWord rest).2, rfl⟩
      rw [htw] at h
      simp only [Prod.mk.injEq] at h
      obtain ⟨hw, hr⟩ := h
      obtain ⟨heq, hall, hend⟩ := ih w1 r1 htw
      subst hw
      subst hr
      refine ⟨by rw [heq]; rfl, ?_, hend⟩
      intro x hx
      rcases List.mem_cons.mp hx with rfl | hx
      · exact hc
      · exact hall x hx
    · rw [if_neg hc] at h
      simp only [Prod.mk.injEq] at h
      obtain ⟨hw, hr⟩ := h
      subst hw
      subst hr
      exact ⟨rfl, by simp, Or.inr ⟨c, rest, rfl, Bool.eq_false_iff.mpr hc⟩⟩

lemma takeIcuWord_complete :
    ∀ w x r, (∀ c ∈ w, isIcuWordChar c = true) → isIcuWordChar x = false →
      takeIcuWord (w ++ x :: r) = (w, x :: r) := by
  intro w
  induction w with
  | nil =>
    intro x r _ hx
    rw [List.nil_append, takeIcuWord, if_neg (by simp [hx])]
  | cons c w' ih =>
    intro x r hall hx
    have hc : isIcuWordChar c = true := hall c (List.mem_cons_self c w')
    rw [List.cons_append, takeIcuWord, if_pos hc,
      ih x r (fun d hd => hall d (List.mem_cons_of_mem c hd)) hx]

/-! ### Helper lemmas: the ICU placeholder parser and scanner -/

lemma parseIcuName_sound {cs : List Char} {n : String} {r : List Char}
    (h : parseIcuName cs = some (n, r)) :
    isValidIcuName n = true ∧ cs = n.data ++ ('}' :: r) := by
  rcases cs with _ | ⟨c, rest⟩
  · exact absurd h (by simp [parseIcuName])
  · rw [parseIcuName] at h
    by_cases hc : isIcuNameStart c
    · rw [if_pos hc] at h
      obtain ⟨w, r1, htw⟩ : ∃ p q, takeIcuWord rest = (p, q) :=
        ⟨(takeIcuWord rest).1, (takeIcuWord rest).2, rfl⟩
      rw [htw] at h
      rcases r1 with _ | ⟨rb, r2⟩
      · exact absurd h (by simp)
      · by_cases hrb : rb = '}'
        · subst hrb
          simp only [Option.some.injEq, Prod.mk.injEq] at h
          obtain ⟨hn, hr⟩ := h
          obtain ⟨heq, hall, -⟩ := takeIcuWord_sound rest w ('}' :: r2) htw
          have hdata : n.data = c :: w := by rw [← hn]
          constructor
          · rw [isValidIcuName, hdata]
            simp only [Bool.and_eq_true, List.all_eq_true]
            exact ⟨hc, fun x hx => hall x hx⟩
          · rw [hdata, heq, ← hr]
            rfl
        · exact absurd h (by simp [hrb])
    · exact absurd h (by simp [hc])

lemma parseIcuName_complete {n : String} (h : isValidIcuName n = true)
    (r : List Char) : parseIcuName (n.data ++ ('}' :: r)) = some (n, r) := by
  obtain ⟨c, cs, hd, hc, hcs⟩ := valid_name_shape h
  rw [hd, List.cons_append, parseIcuName, if_pos hc,
    takeIcuWord_complete cs '}' r hcs (by decide)]
  simp only [Option.some.injEq, Prod.mk.injEq]
  exact ⟨data_injective (by rw [hd]), trivial⟩

/-! ### Helper lemmas: list surgery -/

lemma split_at_lbrace :
    ∀ (xs as ys bs : List Char), xs ++ ys = as ++ ('{' :: bs) → '{' ∉ xs →
      ∃ k, as = xs ++ k ∧ ys = k ++ ('{' :: bs) := by
  intro xs
  induction xs with
  | nil =>
    intro as ys bs h _
    exact ⟨as, rfl, h⟩
  | cons x xs' ih =>
    intro as ys bs h hx
    rcases as with _ | ⟨a, as'⟩
    · rw [List.nil_append, List.cons_append] at h
      injection h with h1 _
      exact absurd (by rw [h1]; exact List.mem_cons_self _ _) hx
    · rw [List.cons_append, List.cons_append] at h
      injection h with h1 h2
      obtain ⟨k, hk1, hk2⟩ := ih as' ys bs h2 (fun hm => hx (List.mem_cons_of_mem x hm))
      exact ⟨k, by rw [List.cons_append, hk1, h1], hk2⟩

lemma append_eq_append_of_length_le :
    ∀ (a c b d : List Char), a ++ b = c ++ d → a.length ≤ c.length →
      ∃ w, c = a ++ w ∧ b = w ++ d := by
  intro a
  induction a with
  | nil =>
    intro c b d h _
    exact ⟨c, rfl, h⟩
  | cons x a' ih =>
    intro c b d h hlen
    rcases c with _ | ⟨y, c'⟩
    · simp at hlen
    · rw [List.cons_append, List.cons_append] at h
      injection h with h1 h2
      obtain ⟨w, hw1, hw2⟩ := ih c' b d h2 (by simpa using hlen)
      exact ⟨w, by rw [List.cons_append, hw1, h1], hw2⟩

lemma name_append_inj :
    ∀ (a b r1 r2 : List Char), '}' ∉ a → '}' ∉ b →
      a ++ ('}' :: r1) = b ++ ('}' :: r2) → a = b ∧ r1 = r2 := by
  intro a
  induction a with
  | nil =>
    intro b r1 r2 _ hb h
    rcases b with _ | ⟨y, b'⟩
    · rw [List.nil_append, List.nil_append] at h
      injection h with _ h2
      exact ⟨rfl, h2⟩
    · rw [List.nil_append, List.cons_append] at h
      injection h with h1 _
      exact absurd (by rw [← h1]; exact List.mem_cons_self _ _) hb
  | cons x a' ih =>
    intro b r1 r2 ha hb h
    rcases b with _ | ⟨y, b'⟩
    · rw [List.cons_append, List.nil_append] at h
      injection h with h1 _
      exact absurd (by rw [h1]; exact List.mem_cons_self _ _) ha
    · rw [List.cons_append, List.cons_append] at h
      injection h with h1 h2
      obtain ⟨e1, e2⟩ := ih b' r1 r2 (fun hm => ha (List.mem_cons_of_mem x hm))
        (fun hm => hb (List.mem_cons_of_mem y hm)) h2
      exact ⟨by rw [h1, e1], e2⟩

lemma drop_append_self :
    ∀ (a b s : List Char), s = a ++ b → s.drop (s.length - b.length) = b := by
  intro a
  induction a with
  | nil =>
    intro b s h
    subst h
    simp
  | cons x a' ih =>
    intro b s h
    subst h
    rw [List.cons_append]
    have hl : (x :: (a' ++ b)).length - b.length = (a' ++ b).length - b.length + 1 := by
      simp only [List.length_cons, List.length_append]
      omega
    rw [hl, List.drop_succ_cons]
    exact ih b (a' ++ b) rfl

/-! ### Helper lemmas: the ICU global-regex scanner -/

lemma icuFindMatch_sound :
    ∀ (cs : List Char) (m : String) (rest : List Char),
      icuFindMatch cs = some (m, rest) →
      ∃ l0, cs = l0 ++ ('{' :: (m.data ++ ('}' :: rest))) ∧
        isValidIcuName m = true ∧
        ∀ (l : List Char) (n : String) (r : List Char), isValidIcuName n = true →
          cs = l ++ ('{' :: (n.data ++ ('}' :: r))) → l0.length ≤ l.length := by
  intro cs
  induction cs with
  | nil =>
    intro m rest h
    exact absurd h (by simp [icuFindMatch])
  | cons c cs' ih =>
    intro m rest h
    rw [icuFindMatch] at h
    by_cases hc : c = '{'
    · rw [if_pos hc] at h
      subst hc
      cases hp : parseIcuName cs' with
      | some pr =>
        rcases pr with ⟨n0, r0⟩
        rw [hp] at h
        simp only [Option.some.injEq, Prod.mk.injEq] at h
        obtain ⟨rfl, rfl⟩ := h
        obtain ⟨hvalid, hcs'⟩ := parseIcuName_sound hp
        refine ⟨[], by rw [List.nil_append, hcs'], hvalid, ?_⟩
        intro l n r _ _
        exact Nat.zero_le _
      | none =>
        rw [hp] at h
        obtain ⟨l0, hdec, hm, hmin⟩ := ih m rest h
        refine ⟨'{' :: l0, by rw [List.cons_append, hdec], hm, ?_⟩
        intro l n r hn hocc
        rcases l with _ | ⟨x, l'⟩
        · rw [List.nil_append] at hocc
          injection hocc with _ h2
          have := parseIcuName_complete hn r
          rw [← h2, hp] at this
          cases this
        · rw [List.cons_append] at hocc
          injection hocc with _ h2
          have := hmin l' n r hn h2
          simpa using Nat.succ_le_succ this
    · rw [if_neg hc] at h
      obtain ⟨l0, hdec, hm, hmin⟩ := ih m rest h
      refine ⟨c :: l0, by rw [List.cons_append, hdec], hm, ?_⟩
      intro l n r hn hocc
      rcases l with _ | ⟨x, l'⟩
      · rw [List.nil_append] at hocc
        injection hocc with h1 _
        exact absurd h1 hc
      · rw [List.cons_append] at hocc
        injection hocc with _ h2
        have := hmin l' n r hn h2
        simpa using Nat.succ_le_succ this

lemma icuFindMatch_complete :
    ∀ (l : List Char) (n : String) (r cs : List Char), isValidIcuName n = true →
      cs = l ++ ('{' :: (n.data ++ ('}' :: r))) →
      (icuFindMatch cs).isSome = true := by
  intro l
  induction l with
  | nil =>
    intro n r cs hn hcs
    subst hcs
    rw [List.nil_append, icuFindMatch, if_pos rfl, parseIcuName_complete hn r]
    rfl
  | cons x l' ih =>
    intro n r cs hn hcs
    subst hcs
    rw [List.cons_append, icuFindMatch]
    by_cases hx : x = '{'
    · rw [if_pos hx]
      cases hp : parseIcuName (l' ++ ('{' :: (n.data ++ ('}' :: r)))) with
      | some pr =>
        rcases pr with ⟨n0, r0⟩
        simp [hp]
      | none =>
        simp only [hp]
        exact ih n r _ hn rfl
    · rw [if_neg hx]
      exact ih n r _ hn rfl

lemma icuExec_eq_none {s : List Char} {i : Nat} (h : icuExec s i = none) :
    icuFindMatch (s.drop i) = none := by
  unfold icuExec at h
  cases hf : icuFindMatch (s.drop i) with
  | none => rfl
  | some pr =>
    rcases pr with ⟨n, rest⟩
    rw [hf] at h
    cases h

lemma icuExec_eq_some {s : List Char} {i : Nat} {n : String} {j : Nat}
    (h : icuExec s i = some (n, j)) :
    icuFindMatch (s.drop i) = some (n, s.drop j) ∧ i < j ∧ j ≤ s.length := by
  unfold icuExec at h
  cases hf : icuFindMatch (s.drop i) with
  | none =>
    rw [hf] at h
    cases h
  | some pr =>
    rcases pr with ⟨n0, rest⟩
    rw [hf] at h
    simp only [Option.some.injEq, Prod.mk.injEq] at h
    obtain ⟨hn, hj⟩ := h
    obtain ⟨l0, hdec, hm, -⟩ := icuFindMatch_sound _ _ _ hf
    have hsplit : s = (s.take i ++ (l0 ++ ('{' :: (n0.data ++ ['}'])))) ++ rest := by
      calc s = s.take i ++ s.drop i := (List.take_append_drop i s).symm
        _ = _ := by rw [hdec]; simp [List.append_assoc]
    have hdrop : s.drop (s.length - rest.length) = rest :=
      drop_append_self _ rest s hsplit
    have hlen1 : (s.drop i).length = s.length - i := List.length_drop i s
    have hlen2 : s.length - i = l0.length + n0.data.length + rest.length + 2 := by
      rw [← hlen1, hdec]
      simp only [List.length_append, List.length_cons]
      omega
    have hpos : 0 < n0.data.length := List.length_pos.mpr (valid_name_ne_nil hm)
    refine ⟨?_, ?_, ?_⟩
    · rw [← hn, ← hj, hdrop]
    · omega
    · omega

lemma gatherIcuFuel_succ_none {f : Nat} {s : List Char} {i : Nat}
    (h : icuExec s i = none) : gatherIcuFuel (f + 1) s i = ([], 0) := by
  rw [gatherIcuFuel, h]

lemma gatherIcuFuel_succ_some {f : Nat} {s : List Char} {n : String} {i j : Nat}
    (h : icuExec s i = some (n, j)) :
    gatherIcuFuel (f + 1) s i =
      (n :: (gatherIcuFuel f s j).1, (gatherIcuFuel f s j).2) := by
  rw [gatherIcuFuel, h]

lemma gatherIcuFuel_snd : ∀ (fuel : Nat) (s : List Char) (i : Nat),
    (gatherIcuFuel fuel s i).2 = 0 := by
  intro fuel
  induction fuel with
  | zero =>
    intro s i
    rfl
  | succ f ih =>
    intro s i
    cases h : icuExec s i with
    | none => rw [gatherIcuFuel_succ_none h]
    | some pr =>
      rcases pr with ⟨n, j⟩
      rw [gatherIcuFuel_succ_some h]
      exact ih s j

lemma gatherIcuFuel_mem :
    ∀ (fuel : Nat) (s : List Char) (i : Nat), s.length + 1 - i ≤ fuel →
      ∀ n : String, n ∈ (gatherIcuFuel fuel s i).1 ↔
        (isValidIcuName n = true ∧
          ∃ l r, s.drop i = l ++ ('{' :: (n.data ++ ('}' :: r)))) := by
  intro fuel
  induction fuel with
  | zero =>
    intro s i hfuel n
    have hdrop : s.drop i = [] := List.drop_eq_nil_of_le (by omega)
    rw [hdrop]
    simp only [gatherIcuFuel, List.not_mem_nil, false_iff, not_and]
    rintro - ⟨l, r, hl⟩
    have hlen := congrArg List.length hl
    simp only [List.length_nil, List.length_append, List.length_cons] at hlen
    omega
  | succ f ih =>
    intro s i hfuel n
    cases h : icuExec s i with
    | none =>
      rw [gatherIcuFuel_succ_none h]
      have hfind : icuFindMatch (s.drop i) = none := icuExec_eq_none h
      simp only [List.not_mem_nil, false_iff, not_and]
      rintro hn ⟨l, r, hl⟩
      have := icuFindMatch_complete l n r _ hn hl
      rw [hfind] at this
      cases this
    | some pr =>
      rcases pr with ⟨m, j⟩
      rw [gatherIcuFuel_succ_some h]
      obtain ⟨hfind, hij, hjs⟩ := icuExec_eq_some h
      simp only [List.mem_cons]
      have ihj := ih s j (by omega) n
      obtain ⟨l0, hdec, hm, hmin⟩ := icuFindMatch_sound _ _ _ hfind
      constructor
      · rintro (rfl | hmem)
        · exact ⟨hm, l0, s.drop j, hdec⟩
        · obtain ⟨hn, l', r', hl'⟩ := ihj.mp hmem
          refine ⟨hn, l0 ++ ('{' :: (m.data ++ ('}' :: l'))), r', ?_⟩
          rw [hdec, hl']
          simp [List.append_assoc]
      · rintro ⟨hn, l, r, hl⟩
        have hlenle := hmin l n r hn hl
        obtain ⟨w, hw1, hw2⟩ :=
          append_eq_append_of_length_le l0 l _ _ (by rw [← hdec, ← hl]) hlenle
        rcases w with _ | ⟨w0, w'⟩
        · rw [List.nil_append] at hw2
          injection hw2 with _ h2
          obtain ⟨e1, e2⟩ := name_append_inj m.data n.data _ _
            (valid_no_rbrace hm) (valid_no_rbrace hn) h2
          exact Or.inl (data_injective e1.symm)
        · rw [List.cons_append] at hw2
          injection hw2 with h1 h2
          have h2' : (m.data ++ ['}']) ++ s.drop j =
              w' ++ ('{' :: (n.data ++ ('}' :: r))) := by
            rw [List.append_assoc]
            simpa using h2
          have hnb : '{' ∉ m.data ++ ['}'] := by
            intro hmem
            rcases List.mem_append.mp hmem with hx | hx
            · exact valid_no_lbrace hm hx
            · rw [List.mem_singleton] at hx
              cases hx
          obtain ⟨k, hk1, hk2⟩ := split_at_lbrace (m.data ++ ['}']) w'
            (s.drop j) (n.data ++ ('}' :: r)) h2' hnb
          exact Or.inr (ihj.mpr ⟨hn, k, r, hk2⟩)

lemma gather_snd (t : String) (st : Nat) :
    (gatherIcuPlaceholderNames t st).2 = 0 :=
  gatherIcuFuel_snd _ _ _

lemma gather_mem (t : String) (st : Nat) (n : String) :
    n ∈ (gatherIcuPlaceholderNames t st).1 ↔
      (isValidIcuName n = true ∧
        ∃ l r, t.data.drop st = l ++ ('{' :: (n.data ++ ('}' :: r)))) :=
  gatherIcuFuel_mem _ _ _ (by omega) n

lemma gather_mem_zero (t : String) (n : String) :
    n ∈ (gatherIcuPlaceholderNames t 0).1 ↔
      (isValidIcuName n = true ∧
        ∃ l r, t.data = l ++ ('{' :: (n.data ++ ('}' :: r)))) := by
  rw [gather_mem]
  rw [List.drop_zero]

/-! ### Helper lemmas: the closure-style placeholder scanner -/

lemma takeNonBrace_sound :
    ∀ cs w r, takeNonBrace cs = (w, r) →
      cs = w ++ r ∧ '}' ∉ w ∧ (r = [] ∨ ∃ r2, r = '}' :: r2) := by
  intro cs
  induction cs with
  | nil =>
    intro w r h
    simp only [takeNonBrace, Prod.mk.injEq] at h
    obtain ⟨rfl, rfl⟩ := h
    exact ⟨rfl, by simp, Or.inl rfl⟩
  | cons c rest ih =>
    intro w r h
    rw [takeNonBrace] at h
    by_cases hc : c = '}'
    · rw [if_pos hc] at h
      simp only [Prod.mk.injEq] at h
      obtain ⟨rfl, rfl⟩ := h
      exact ⟨rfl, by simp, Or.inr ⟨rest, by rw [hc]⟩⟩
    · rw [if_neg hc] at h
      obtain ⟨w1, r1, htn⟩ : ∃ p q, takeNonBrace rest = (p, q) := ⟨_, _, rfl⟩
      rw [htn] at h
      simp only [Prod.mk.injEq] at h
      obtain ⟨hw, hr⟩ := h
      obtain ⟨heq, hnb, hend⟩ := ih w1 r1 htn
      constructor
      · rw [← hw, List.cons_append, heq, hr]
      · refine ⟨?_, by rw [← hr]; exact hend⟩
        rw [← hw]
        intro hm
        rcases List.mem_cons.mp hm with hbr | hbr
        · exact hc hbr.symm
        · exact hnb hbr

lemma takeNonBrace_complete :
    ∀ w r, '}' ∉ w → takeNonBrace (w ++ '}' :: r) = (w, '}' :: r) := by
  intro w
  induction w with
  | nil =>
    intro r _
    rw [List.nil_append, takeNonBrace, if_pos rfl]
  | cons c w' ih =>
    intro r hnb
    have hc : ¬ c = '}' := fun hc => hnb (by rw [hc]; exact List.mem_cons_self _ _)
    rw [List.cons_append, takeNonBrace, if_neg hc,
      ih r (fun hm => hnb (List.mem_cons_of_mem c hm))]

lemma closureMatchAt_sound {cs : List Char} {p : String}
    (h : closureMatchAt cs = some p) :
    ∃ Y r, cs = '$' :: (Y ++ ('}' :: r)) ∧ Y ≠ [] ∧ '}' ∉ Y ∧
      p = String.mk ('{' :: '$' :: (Y ++ ['}'])) := by
  rcases cs with _ | ⟨d, rest2⟩
  · exact absurd h (by simp [closureMatchAt])
  · rw [closureMatchAt] at h
    by_cases hd : d = '$'
    · rw [if_pos hd] at h
      obtain ⟨content, r, htn⟩ : ∃ p q, takeNonBrace rest2 = (p, q) := ⟨_, _, rfl⟩
      rw [htn] at h
      obtain ⟨heq, hnb, hend⟩ := takeNonBrace_sound rest2 content r htn
      rcases content with _ | ⟨c1, content'⟩
      · rcases r with _ | ⟨rb, r'⟩ <;> exact absurd h (by simp)
      · rcases r with _ | ⟨rb, r'⟩
        · exact absurd h (by simp)
        · have h' : (if rb = '}' then
              some (String.mk ('{' :: '$' :: ((c1 :: content') ++ ['}'])))
            else none) = some p := h
          by_cases hrb : rb = '}'
          · rw [if_pos hrb] at h'
            simp only [Option.some.injEq] at h'
            refine ⟨c1 :: content', r', ?_, List.cons_ne_nil c1 content', hnb, h'.symm⟩
            rw [hd, heq, hrb]
          · rw [if_neg hrb] at h'
            cases h'
    · rw [if_neg hd] at h
      cases h

lemma closureMatchAt_complete {Y r : List Char} (hY : Y ≠ []) (hnb : '}' ∉ Y) :
    closureMatchAt ('$' :: (Y ++ ('}' :: r))) =
      some (String.mk ('{' :: '$' :: (Y ++ ['}']))) := by
  rw [closureMatchAt, if_pos rfl, takeNonBrace_complete Y r hnb]
  rcases Y with _ | ⟨c1, Y'⟩
  · exact absurd rfl hY
  · show (if ('}' : Char) = '}' then
        some (String.mk ('{' :: '$' :: ((c1 :: Y') ++ ['}']))) else none) =
      some (String.mk ('{' :: '$' :: ((c1 :: Y') ++ ['}'])))
    rw [if_pos rfl]

lemma closureExec_sound :
    ∀ (cs : List Char) (p : String), closureExec cs = some p →
      ∃ l Y r, cs = l ++ ('{' :: '$' :: (Y ++ ('}' :: r))) ∧ Y ≠ [] ∧
        '}' ∉ Y ∧ p = String.mk ('{' :: '$' :: (Y ++ ['}'])) := by
  intro cs
  induction cs with
  | nil =>
    intro p h
    exact absurd h (by simp [closureExec])
  | cons c rest ih =>
    intro p h
    rw [closureExec] at h
    by_cases hc : c = '{'
    · rw [if_pos hc] at h
      cases hm : closureMatchAt rest with
      | some m =>
        rw [hm] at h
        simp only [Option.some.injEq] at h
        obtain ⟨Y, r, hrest, hY, hnb, hp⟩ := closureMatchAt_sound hm
        refine ⟨[], Y, r, ?_, hY, hnb, by rw [← h, hp]⟩
        rw [List.nil_append, hc, hrest]
      | none =>
        rw [hm] at h
        obtain ⟨l, Y, r, hdec, hY, hnb, hp⟩ := ih p h
        exact ⟨c :: l, Y, r, by rw [List.cons_append, hdec], hY, hnb, hp⟩
    · rw [if_neg hc] at h
      obtain ⟨l, Y, r, hdec, hY, hnb, hp⟩ := ih p h
      exact ⟨c :: l, Y, r, by rw [List.cons_append, hdec], hY, hnb, hp⟩

lemma closureExec_complete :
    ∀ (l Y r cs : List Char), Y ≠ [] → '}' ∉ Y →
      cs = l ++ ('{' :: '$' :: (Y ++ ('}' :: r))) →
      (closureExec cs).isSome = true := by
  intro l
  induction l with
  | nil =>
    intro Y r cs hY hnb hcs
    subst hcs
    rw [List.nil_append, closureExec, if_pos rfl, closureMatchAt_complete hY hnb]
    rfl
  | cons x l' ih =>
    intro Y r cs hY hnb hcs
    subst hcs
    rw [List.cons_append, closureExec]
    by_cases hx : x = '{'
    · rw [if_pos hx]
      cases hm : closureMatchAt (l' ++ ('{' :: '$' :: (Y ++ ('}' :: r)))) with
      | some m => simp [hm]
      | none =>
        simp only [hm]
        exact ih Y r _ hY hnb rfl
    · rw [if_neg hx]
      exact ih Y r _ hY hnb rfl

lemma noClosure_sound {t : String} {e : ValidationError}
    (h : assertNoClosureStylePlaceholdersInIcuTemplate t = some e) :
    ∃ p l Y r, e = .closureStylePlaceholder p t ∧
      t.data = l ++ ('{' :: '$' :: (Y ++ ('}' :: r))) ∧ Y ≠ [] ∧ '}' ∉ Y ∧
      p = String.mk ('{' :: '$' :: (Y ++ ['}'])) := by
  unfold assertNoClosureStylePlaceholdersInIcuTemplate at h
  cases hc : closureExec t.data with
  | none =>
    rw [hc] at h
    cases h
  | some p =>
    rw [hc] at h
    simp only [Option.some.injEq] at h
    obtain ⟨l, Y, r, hdec, hY, hnb, hp⟩ := closureExec_sound _ _ hc
    exact ⟨p, l, Y, r, h.symm, hdec, hY, hnb, hp⟩

lemma noClosure_of_no_occurrence {t : String}
    (h : ¬ ∃ l Y r, t.data = l ++ ('{' :: '$' :: (Y ++ ('}' :: r))) ∧
      Y ≠ [] ∧ '}' ∉ Y) :
    assertNoClosureStylePlaceholdersInIcuTemplate t = none := by
  unfold assertNoClosureStylePlaceholdersInIcuTemplate
  cases hc : closureExec t.data with
  | none => rfl
  | some p =>
    obtain ⟨l, Y, r, hdec, hY, hnb, -⟩ := closureExec_sound _ _ hc
    exact absurd ⟨l, Y, r, hdec, hY, hnb⟩ h

lemma noClosure_isSome_iff (t : String) :
    (assertNoClosureStylePlaceholdersInIcuTemplate t).isSome = true ↔
      ∃ l Y r, t.data = l ++ ('{' :: '$' :: (Y ++ ('}' :: r))) ∧
        Y ≠ [] ∧ '}' ∉ Y := by
  constructor
  · intro h
    cases hs : assertNoClosureStylePlaceholdersInIcuTemplate t with
    | none =>
      rw [hs] at h
      cases h
    | some e =>
      obtain ⟨p, l, Y, r, -, hdec, hY, hnb, -⟩ := noClosure_sound hs
      exact ⟨l, Y, r, hdec, hY, hnb⟩
  · rintro ⟨l, Y, r, hdec, hY, hnb⟩
    unfold assertNoClosureStylePlaceholdersInIcuTemplate
    have := closureExec_complete l Y r t.data hY hnb hdec
    cases hc : closureExec t.data with
    | none =>
      rw [hc] at this
      cases this
    | some p => rfl

/-! ### Helper lemmas: the validation pipeline -/

lemma validate_false_eq (t : String) (o : IcuTemplateOptions) (st : Nat) :
    assertDeclareIcuTemplateParametersAreValid false t o st =
      match assertNoClosureStylePlaceholdersInIcuTemplate t with
      | some e => (some e, st)
      | none =>
        (checkOptions o (gatherIcuPlaceholderNames t st).1,
          (gatherIcuPlaceholderNames t st).2) := rfl

lemma validate_legacy_some {t : String} {e : ValidationError}
    (o : IcuTemplateOptions) (st : Nat)
    (h : assertNoClosureStylePlaceholdersInIcuTemplate t = some e) :
    assertDeclareIcuTemplateParametersAreValid false t o st = (some e, st) := by
  rw [validate_false_eq, h]

lemma validate_legacy_none {t : String} (o : IcuTemplateOptions) (st : Nat)
    (h : assertNoClosureStylePlaceholdersInIcuTemplate t = none) :
    assertDeclareIcuTemplateParametersAreValid false t o st =
      (checkOptions o (gatherIcuPlaceholderNames t st).1,
        (gatherIcuPlaceholderNames t st).2) := by
  rw [validate_false_eq, h]

lemma checkOptions_desc {o : IcuTemplateOptions} {names : List String}
    {e : ValidationError} (hd : checkDescription o = some e) :
    checkOptions o names = some e := by
  unfold checkOptions
  rw [hd]

lemma checkOptions_meaning {o : IcuTemplateOptions} {names : List String}
    {e : ValidationError} (hd : checkDescription o = none)
    (hm : checkMeaning o = some e) : checkOptions o names = some e := by
  unfold checkOptions
  rw [hd, hm]

lemma checkOptions_example {o : IcuTemplateOptions} {names : List String}
    {e : ValidationError} (hd : checkDescription o = none)
    (hm : checkMeaning o = none)
    (he : checkPlaceholderMapOption "example" o names = some e) :
    checkOptions o names = some e := by
  unfold checkOptions
  rw [hd, hm, he]

lemma checkOptions_oc {o : IcuTemplateOptions} {names : List String}
    {e : ValidationError} (hd : checkDescription o = none)
    (hm : checkMeaning o = none)
    (he : checkPlaceholderMapOption "example" o names = none)
    (hoc : checkPlaceholderMapOption "original_code" o names = some e) :
    checkOptions o names = some e := by
  unfold checkOptions
  rw [hd, hm, he, hoc]

lemma checkOptions_all_none {o : IcuTemplateOptions} {names : List String}
    (hd : checkDescription o = none) (hm : checkMeaning o = none)
    (he : checkPlaceholderMapOption "example" o names = none)
    (hoc : checkPlaceholderMapOption "original_code" o names = none) :
    checkOptions o names = checkUnknownOptions o := by
  unfold checkOptions
  rw [hd, hm, he, hoc]

lemma checkOptions_isSome (o : IcuTemplateOptions) (names : List String)
    (h : checkDescription o ≠ none ∨ checkMeaning o ≠ none ∨
      checkPlaceholderMapOption "example" o names ≠ none ∨
      checkPlaceholderMapOption "original_code" o names ≠ none ∨
      checkUnknownOptions o ≠ none) :
    ∃ e, checkOptions o names = some e := by
  cases hd : checkDescription o with
  | some e => exact ⟨e, checkOptions_desc hd⟩
  | none =>
    cases hm : checkMeaning o with
    | some e => exact ⟨e, checkOptions_meaning hd hm⟩
    | none =>
      cases he : checkPlaceholderMapOption "example" o names with
      | some e => exact ⟨e, checkOptions_example hd hm he⟩
      | none =>
        cases hoc : checkPlaceholderMapOption "original_code" o names with
        | some e => exact ⟨e, checkOptions_oc hd hm he hoc⟩
        | none =>
          cases hu : checkUnknownOptions o with
          | some e => exact ⟨e, by rw [checkOptions_all_none hd hm he hoc, hu]⟩
          | none =>
            rcases h with h | h | h | h | h <;>
              [exact absurd hd h; exact absurd hm h; exact absurd he h;
                exact absurd hoc h; exact absurd hu h]

lemma checkDescription_some_of_not_str {o : IcuTemplateOptions}
    (h : ∀ s, o.get "description" ≠ JSValue.str s) :
    ∃ e, checkDescription o = some e := by
  unfold checkDescription
  cases hv : o.get "description" with
  | str s => exact absurd hv (h s)
  | num n =>
    by_cases hn : n = 0
    · subst hn
      exact ⟨.noDescription, rfl⟩
    · refine ⟨.invalidDescription (JSValue.num n), ?_⟩
      have ht : (JSValue.num n).truthy = true := by
        simp [JSValue.truthy, bne_iff_ne, hn]
      rw [ht]
      rfl
  | boolean b =>
    cases b
    · exact ⟨.noDescription, rfl⟩
    · exact ⟨.invalidDescription (JSValue.boolean true), rfl⟩
  | nullV => exact ⟨.noDescription, rfl⟩
  | undefinedV => exact ⟨.noDescription, rfl⟩
  | obj fields => exact ⟨.invalidDescription (JSValue.obj fields), rfl⟩

lemma checkDescription_none_of_str {o : IcuTemplateOptions} {d : String}
    (h : o.get "description" = JSValue.str d) (hd : d ≠ "") :
    checkDescription o = none := by
  unfold checkDescription
  rw [h]
  have ht : (JSValue.str d).truthy = true := by
    simp only [JSValue.truthy, Bool.not_eq_true', beq_eq_false_iff_ne, ne_eq]
    exact hd
  rw [ht]
  rfl

lemma checkMeaning_none_of_undefined {o : IcuTemplateOptions}
    (h : o.get "meaning" = JSValue.undefinedV) : checkMeaning o = none := by
  unfold checkMeaning
  rw [h]
  rfl

lemma checkMeaning_none_of_str {o : IcuTemplateOptions} {m : String}
    (h : o.get "meaning" = JSValue.str m) : checkMeaning o = none := by
  unfold checkMeaning
  rw [h]
  simp [JSValue.isString]

lemma checkMeaning_some_of_truthy_not_str {o : IcuTemplateOptions}
    (ht : (o.get "meaning").truthy = true)
    (hs : (o.get "meaning").isString = false) :
    checkMeaning o = some (.invalidMeaning (o.get "meaning")) := by
  unfold checkMeaning
  rw [ht, hs]
  rfl

lemma checkMap_none_of_undefined {mapName : String} {o : IcuTemplateOptions}
    (names : List String) (h : o.get mapName = JSValue.undefinedV) :
    checkPlaceholderMapOption mapName o names = none := by
  unfold checkPlaceholderMapOption
  rw [h]
  rfl

lemma checkMap_of_obj {mapName : String} {o : IcuTemplateOptions}
    {m : List (String × JSValue)} (names : List String)
    (h : o.get mapName = JSValue.obj m) :
    checkPlaceholderMapOption mapName o names =
      assertValidPlaceholderMap mapName m names := by
  unfold checkPlaceholderMapOption
  rw [h]
  rfl

lemma avpm_none {mapName : String} {names : List String} :
    ∀ m : List (String × JSValue),
      (∀ k v, (k, v) ∈ m → k ∈ names ∧ v.isString = true) →
      assertValidPlaceholderMap mapName m names = none := by
  intro m
  induction m with
  | nil =>
    intro _
    rfl
  | cons kv rest ih =>
    intro h
    rcases kv with ⟨k, v⟩
    obtain ⟨hk, hv⟩ := h k v (List.mem_cons_self _ _)
    rw [assertValidPlaceholderMap, if_pos hk, if_pos hv]
    exact ih (fun k2 v2 hm => h k2 v2 (List.mem_cons_of_mem _ hm))

lemma avpm_some {mapName : String} {names : List String} :
    ∀ m : List (String × JSValue),
      (∃ k v, (k, v) ∈ m ∧ (k ∉ names ∨ v.isString = false)) →
      ∃ e, assertValidPlaceholderMap mapName m names = some e ∧
        ((∃ k, k ∈ m.map Prod.fst ∧ k ∉ names ∧
            e = .unknownPlaceholder mapName k) ∨
          (∃ k v, (k, v) ∈ m ∧ v.isString = false ∧
            e = .invalidMapValue mapName k v)) := by
  intro m
  induction m with
  | nil =>
    rintro ⟨k, v, hm, -⟩
    exact absurd hm (List.not_mem_nil _)
  | cons kv rest ih =>
    rintro ⟨k, v, hm, hbad⟩
    rcases kv with ⟨k1, v1⟩
    by_cases hk1 : k1 ∈ names
    · by_cases hv1 : v1.isString = true
      · rw [assertValidPlaceholderMap, if_pos hk1, if_pos hv1]
        rcases List.mem_cons.mp hm with heq | hm2
        · obtain ⟨hk, hv⟩ := Prod.mk.injEq .. ▸ heq
          rcases hbad with hbad | hbad
          · exact absurd (hk ▸ hk1) hbad
          · rw [hv] at hbad
            rw [hbad] at hv1
            cases hv1
        · obtain ⟨e, he, hshape⟩ := ih ⟨k, v, hm2, hbad⟩
          refine ⟨e, he, ?_⟩
          rcases hshape with ⟨k2, hk2, hn2, he2⟩ | ⟨k2, v2, hm2', hs2, he2⟩
          · exact Or.inl ⟨k2, List.mem_cons_of_mem _ hk2, hn2, he2⟩
          · exact Or.inr ⟨k2, v2, List.mem_cons_of_mem _ hm2', hs2, he2⟩
      · refine ⟨.invalidMapValue mapName k1 v1, ?_, ?_⟩
        · rw [assertValidPlaceholderMap, if_pos hk1,
            if_neg (by simpa using hv1)]
        · exact Or.inr ⟨k1, v1, List.mem_cons_self _ _,
            Bool.eq_false_iff.mpr hv1, rfl⟩
    · refine ⟨.unknownPlaceholder mapName k1, ?_, ?_⟩
      · rw [assertValidPlaceholderMap, if_neg hk1]
      · exact Or.inl ⟨k1, by simp, hk1, rfl⟩

lemma checkUnknownOptions_none {o : IcuTemplateOptions}
    (h : ∀ k ∈ o.keys, k ∈ VALID_OPTIONS) : checkUnknownOptions o = none := by
  unfold checkUnknownOptions
  have hf : o.keys.find? (fun k => decide (¬ k ∈ VALID_OPTIONS)) = none := by
    rw [List.find?_eq_none]
    intro x hx
    simp only [decide_eq_true_eq, not_not]
    exact h x hx
  rw [hf]

lemma checkUnknownOptions_some {o : IcuTemplateOptions} {k : String}
    (hm : k ∈ o.keys) (hk : k ∉ VALID_OPTIONS) :
    ∃ k2, k2 ∈ o.keys ∧ k2 ∉ VALID_OPTIONS ∧
      checkUnknownOptions o = some (.unknownOption k2) := by
  unfold checkUnknownOptions
  have hsome : (o.keys.find? (fun k => decide (¬ k ∈ VALID_OPTIONS))).isSome := by
    rw [List.find?_isSome]
    exact ⟨k, hm, by simpa using hk⟩
  cases hf : o.keys.find? (fun k => decide (¬ k ∈ VALID_OPTIONS)) with
  | none =>
    rw [hf] at hsome
    cases hsome
  | some k2 =>
    refine ⟨k2, List.mem_of_find?_eq_some hf, ?_, rfl⟩
    have := List.find?_some hf
    simpa using this

lemma declare_ok_eq {t : String} {o : IcuTemplateOptions} {s : String}
    (h : (declareIcuTemplate false t o 0).1 = Except.ok s) :
    declareIcuTemplate false t o 0 = (Except.ok t, 0) := by
  unfold declareIcuTemplate at h ⊢
  cases hleg : assertNoClosureStylePlaceholdersInIcuTemplate t with
  | some e =>
    rw [validate_legacy_some o 0 hleg] at h
    have h' : (Except.error e : Except ValidationError String) = Except.ok s := h
    cases h'
  | none =>
    rw [validate_legacy_none o 0 hleg] at h ⊢
    cases hco : checkOptions o (gatherIcuPlaceholderNames t 0).1 with
    | some e =>
      rw [hco] at h
      have h' : (Except.error e : Except ValidationError String) = Except.ok s := h
      cases h'
    | none =>
      rw [gather_snd]

/-! ### Claim theorems -/

/-- C1 (corrected, counterexample): the options record
`{description: ""}` has a `description` field that is present and textual,
the template `"x"` has no legacy placeholder, and the record has no other
fields, yet uncompiled `declareIcuTemplate` fails with the
no-description error, because the empty string is falsy in JavaScript and
`assert(description, 'no description supplied')` rejects it. -/
theorem description_empty_string_fails :
    (IcuTemplateOptions.mk [("description", JSValue.str "")]).get "description"
        = JSValue.str "" ∧
    (JSValue.str "").isString = true ∧
    closureExec "x".data = none ∧
    (IcuTemplateOptions.mk [("description", JSValue.str "")]).keys
        = ["description"] ∧
    (declareIcuTemplate false "x"
        (IcuTemplateOptions.mk [("description", JSValue.str "")]) 0).1
      = Except.error ValidationError.noDescription :=
  ⟨rfl, rfl, rfl, rfl, rfl⟩

/-- C1 (amended): for every template string with no closure-style placeholder
substring and every options record whose `description` is present, textual
and non-empty, whose `meaning` is absent or textual, whose `example` and
`original_code` maps (when present) have only derived placeholder names as
keys and only text values, and which has no unrecognized fields, uncompiled
`declareIcuTemplate` called at the module's initial regex state does not fail
and returns the template string unchanged (with the regex state reset to 0).
In particular this covers
`declareIcuTemplate("Hi, {NAME}!", {description: "greets user",
example: {NAME: "Jane"}})`, which the witness instantiates. -/
theorem valid_options_declare_ok (t : String) (o : IcuTemplateOptions)
    (d : String)
    (hleg : ¬ ∃ l Y r, t.data = l ++ ('{' :: '$' :: (Y ++ ('}' :: r))) ∧
      Y ≠ [] ∧ '}' ∉ Y)
    (hdesc : o.get "description" = JSValue.str d) (hne : d ≠ "")
    (hmean : o.get "meaning" = JSValue.undefinedV ∨
      ∃ m, o.get "meaning" = JSValue.str m)
    (hex : o.get "example" = JSValue.undefinedV ∨
      ∃ em, o.get "example" = JSValue.obj em ∧
        ∀ k v, (k, v) ∈ em →
          k ∈ (gatherIcuPlaceholderNames t 0).1 ∧ v.isString = true)
    (hocm : o.get "original_code" = JSValue.undefinedV ∨
      ∃ ocm, o.get "original_code" = JSValue.obj ocm ∧
        ∀ k v, (k, v) ∈ ocm →
          k ∈ (gatherIcuPlaceholderNames t 0).1 ∧ v.isString = true)
    (hkeys : ∀ k ∈ o.keys, k ∈ VALID_OPTIONS) :
    declareIcuTemplate false t o 0 = (Except.ok t, 0) := by
  have hnc : assertNoClosureStylePlaceholdersInIcuTemplate t = none :=
    noClosure_of_no_occurrence hleg
  have hd : checkDescription o = none := checkDescription_none_of_str hdesc hne
  have hmn : checkMeaning o = none := by
    rcases hmean with h | ⟨m, h⟩
    · exact checkMeaning_none_of_undefined h
    · exact checkMeaning_none_of_str h
  have hec : checkPlaceholderMapOption "example" o
      (gatherIcuPlaceholderNames t 0).1 = none := by
    rcases hex with h | ⟨em, h, hall⟩
    · exact checkMap_none_of_undefined _ h
    · rw [checkMap_of_obj _ h]
      exact avpm_none em hall
  have hoc : checkPlaceholderMapOption "original_code" o
      (gatherIcuPlaceholderNames t 0).1 = none := by
    rcases hocm with h | ⟨ocm, h, hall⟩
    · exact checkMap_none_of_undefined _ h
    · rw [checkMap_of_obj _ h]
      exact avpm_none ocm hall
  have hu : checkUnknownOptions o = none := checkUnknownOptions_none hkeys
  have hv := validate_legacy_none o 0 hnc
  rw [checkOptions_all_none hd hmn hec hoc, hu, gather_snd] at hv
  unfold declareIcuTemplate
  rw [hv]

/-- C1 (witness): the spec's end-to-end example
`declareIcuTemplate("Hi, {NAME}!", {description: "greets user",
example: {NAME: "Jane"}})` succeeds and returns the template unchanged. -/
theorem valid_options_declare_ok_witness :
    declareIcuTemplate false "Hi, {NAME}!"
      (IcuTemplateOptions.mk [("description", JSValue.str "greets user"),
        ("example", JSValue.obj [("NAME", JSValue.str "Jane")])]) 0 =
    (Except.ok "Hi, {NAME}!", 0) := by
  apply valid_options_declare_ok _ _ "greets user"
  · rintro ⟨l, Y, r, hdec, hY, hnb⟩
    have h1 := closureExec_complete l Y r _ hY hnb hdec
    rw [show closureExec "Hi, {NAME}!".data = none from rfl] at h1
    cases h1
  · rfl
  · decide
  · exact Or.inl rfl
  · refine Or.inr ⟨[("NAME", JSValue.str "Jane")], rfl, ?_⟩
    intro k v hm
    rw [List.mem_singleton] at hm
    obtain ⟨hk, hv⟩ := Prod.mk.injEq .. ▸ hm
    subst hk
    subst hv
    exact ⟨by decide, rfl⟩
  · exact Or.inl rfl
  · decide

/-- C2 (confirmed): a template containing a legacy placeholder `{$X}` for any
name X makes uncompiled validation fail, for every options record and regex
state, with a closure-style-placeholder error naming an offending legacy
placeholder (the matched substring) and the full template. -/
theorem legacy_placeholder_always_fails (t : String) (o : IcuTemplateOptions)
    (st : Nat) (X : String) (hX : isValidIcuName X = true)
    (hocc : ∃ l r, t.data = l ++ ('{' :: '$' :: (X.data ++ ('}' :: r)))) :
    ∃ p, assertDeclareIcuTemplateParametersAreValid false t o st =
        (some (ValidationError.closureStylePlaceholder p t), st) ∧
      ∃ l Y r, t.data = l ++ ('{' :: '$' :: (Y ++ ('}' :: r))) ∧ Y ≠ [] ∧
        '}' ∉ Y ∧ p = String.mk ('{' :: '$' :: (Y ++ ['}'])) := by
  obtain ⟨l, r, hdec⟩ := hocc
  have hY : X.data ≠ [] := valid_name_ne_nil hX
  have hnb : '}' ∉ X.data := valid_no_rbrace hX
  have hsome := closureExec_complete l X.data r t.data hY hnb hdec
  cases hc : closureExec t.data with
  | none =>
    rw [hc] at hsome
    cases hsome
  | some p =>
    have hleg : assertNoClosureStylePlaceholdersInIcuTemplate t =
        some (.closureStylePlaceholder p t) := by
      unfold assertNoClosureStylePlaceholdersInIcuTemplate
      rw [hc]
    obtain ⟨l2, Y2, r2, hdec2, hY2, hnb2, hp2⟩ := closureExec_sound _ _ hc
    exact ⟨p, validate_legacy_some o st hleg,
      l2, Y2, r2, hdec2, hY2, hnb2, hp2⟩

/-- C2 (witness): `"Hi, {$NAME}!"` fails with a legacy-placeholder error even
though the options record is empty (so `description` is missing). -/
theorem legacy_placeholder_always_fails_witness :
    ∃ p, assertDeclareIcuTemplateParametersAreValid false "Hi, {$NAME}!"
        (IcuTemplateOptions.mk []) 0 =
        (some (ValidationError.closureStylePlaceholder p "Hi, {$NAME}!"), 0) ∧
      ∃ l Y r, ("Hi, {$NAME}!").data =
          l ++ ('{' :: '$' :: (Y ++ ('}' :: r))) ∧ Y ≠ [] ∧
        '}' ∉ Y ∧ p = String.mk ('{' :: '$' :: (Y ++ ['}'])) :=
  legacy_placeholder_always_fails "Hi, {$NAME}!" (IcuTemplateOptions.mk []) 0
    "NAME" (by decide) ⟨['H', 'i', ',', ' '], ['!'], rfl⟩

/-- C3 (confirmed): a name is in the gathered placeholder-name set (from the
module's initial regex state) precisely when it matches
`[A-Za-z_][A-Za-z0-9_]*` and `{name}` occurs as a substring of the template.
Membership is by string equality, hence case-sensitive, and the
characterization depends only on which substrings occur, not on occurrence
order or multiplicity. -/
theorem gathered_names_characterization (t : String) (n : String) :
    n ∈ (gatherIcuPlaceholderNames t 0).1 ↔
      (isValidIcuName n = true ∧
        ∃ l r, t.data = l ++ ('{' :: (n.data ++ ('}' :: r)))) :=
  gather_mem_zero t n

/-- C4 (confirmed): whenever the `description` field is not a string — which
covers a missing field, read as `undefined` — uncompiled validation fails,
for every template, options record and regex state. -/
theorem description_not_string_fails (t : String) (o : IcuTemplateOptions)
    (st : Nat) (h : ∀ s, o.get "description" ≠ JSValue.str s) :
    ∃ e, (assertDeclareIcuTemplateParametersAreValid false t o st).1
      = some e := by
  cases hleg : assertNoClosureStylePlaceholdersInIcuTemplate t with
  | some e => exact ⟨e, by rw [validate_legacy_some o st hleg]⟩
  | none =>
    obtain ⟨e, he⟩ := checkDescription_some_of_not_str h
    refine ⟨e, ?_⟩
    rw [validate_legacy_none o st hleg]
    exact checkOptions_desc he

/-- C4 (witness): the empty options record (missing `description`) fails. -/
theorem description_not_string_fails_witness :
    ∃ e, (assertDeclareIcuTemplateParametersAreValid false "x"
      (IcuTemplateOptions.mk []) 0).1 = some e :=
  description_not_string_fails "x" (IcuTemplateOptions.mk []) 0
    (fun _ h => JSValue.noConfusion h)

/-- C5 (corrected, counterexample): the options record
`{description: "d", meaning: 0}` has `meaning` present and not text, yet
uncompiled validation succeeds, because `0` is falsy and
`assert(!meaning || typeof meaning == 'string')` passes on falsy values. -/
theorem falsy_meaning_passes :
    (IcuTemplateOptions.mk [("description", JSValue.str "d"),
        ("meaning", JSValue.num 0)]).get "meaning" = JSValue.num 0 ∧
    (JSValue.num 0).isString = false ∧
    (assertDeclareIcuTemplateParametersAreValid false "x"
      (IcuTemplateOptions.mk [("description", JSValue.str "d"),
        ("meaning", JSValue.num 0)]) 0).1 = none :=
  ⟨rfl, rfl, rfl⟩

/-- C5 (amended): when the `meaning` field is present with a truthy non-text
value, uncompiled validation fails, for every template, options record and
regex state; falsy non-text values (0, false, null) pass the meaning assert. -/
theorem truthy_nontext_meaning_fails (t : String) (o : IcuTemplateOptions)
    (st : Nat) (ht : (o.get "meaning").truthy = true)
    (hs : (o.get "meaning").isString = false) :
    ∃ e, (assertDeclareIcuTemplateParametersAreValid false t o st).1
      = some e := by
  cases hleg : assertNoClosureStylePlaceholdersInIcuTemplate t with
  | some e => exact ⟨e, by rw [validate_legacy_some o st hleg]⟩
  | none =>
    cases hd : checkDescription o with
    | some e =>
      refine ⟨e, ?_⟩
      rw [validate_legacy_none o st hleg]
      exact checkOptions_desc hd
    | none =>
      refine ⟨.invalidMeaning (o.get "meaning"), ?_⟩
      rw [validate_legacy_none o st hleg]
      exact checkOptions_meaning hd (checkMeaning_some_of_truthy_not_str ht hs)

/-- C5 (witness): a truthy non-text `meaning` (an object literal) fails. -/
theorem truthy_nontext_meaning_fails_witness :
    ∃ e, (assertDeclareIcuTemplateParametersAreValid false "x"
      (IcuTemplateOptions.mk [("meaning", JSValue.obj [])]) 0).1 = some e :=
  truthy_nontext_meaning_fails "x"
    (IcuTemplateOptions.mk [("meaning", JSValue.obj [])]) 0 rfl rfl

/-- C6 (corrected, counterexample): with `description` missing and an
`example` map whose key `A` is not a derived placeholder name of template
`"x"`, validation fails — but with the no-description error, not an error
naming the key `A` and the `example` map, because the description assert
runs first. -/
theorem map_error_not_named_when_description_missing :
    (IcuTemplateOptions.mk [("example",
        JSValue.obj [("A", JSValue.str "x")])]).get "example"
      = JSValue.obj [("A", JSValue.str "x")] ∧
    ¬ "A" ∈ (gatherIcuPlaceholderNames "x" 0).1 ∧
    (assertDeclareIcuTemplateParametersAreValid false "x"
      (IcuTemplateOptions.mk [("example",
        JSValue.obj [("A", JSValue.str "x")])]) 0).1
      = some ValidationError.noDescription ∧
    ValidationError.noDescription ≠
      ValidationError.unknownPlaceholder "example" "A" :=
  ⟨rfl, by decide, rfl, fun h => ValidationError.noConfusion h⟩

/-- C6 (amended): for each of the `example` and `original_code` maps: a map
containing a key outside the placeholder-name set or a non-text value makes
its map check fail, with an error that names that map together with an
offending key (first offending entry in enumeration order, key membership
checked before value textness); a present bad map always makes the whole
validation fail with some error; when every check preceding the map's check
passes, the map check's error is the validation result; and a present map
whose keys are all placeholder names with text values passes its check. -/
theorem placeholder_map_checks :
    (∀ (mapName : String) (m : List (String × JSValue)) (names : List String),
      (∃ k v, (k, v) ∈ m ∧ (k ∉ names ∨ v.isString = false)) →
      ∃ e, assertValidPlaceholderMap mapName m names = some e ∧
        ((∃ k, k ∈ m.map Prod.fst ∧ k ∉ names ∧
            e = ValidationError.unknownPlaceholder mapName k) ∨
          (∃ k v, (k, v) ∈ m ∧ v.isString = false ∧
            e = ValidationError.invalidMapValue mapName k v))) ∧
    (∀ (mapName : String) (m : List (String × JSValue)) (names : List String),
      (∀ k v, (k, v) ∈ m → k ∈ names ∧ v.isString = true) →
      assertValidPlaceholderMap mapName m names = none) ∧
    (∀ (t : String) (o : IcuTemplateOptions) (st : Nat)
        (m : List (String × JSValue)),
      o.get "example" = JSValue.obj m →
      (∃ k v, (k, v) ∈ m ∧
        (k ∉ (gatherIcuPlaceholderNames t st).1 ∨ v.isString = false)) →
      ∃ e, (assertDeclareIcuTemplateParametersAreValid false t o st).1
        = some e) ∧
    (∀ (t : String) (o : IcuTemplateOptions) (st : Nat)
        (m : List (String × JSValue)),
      o.get "original_code" = JSValue.obj m →
      (∃ k v, (k, v) ∈ m ∧
        (k ∉ (gatherIcuPlaceholderNames t st).1 ∨ v.isString = false)) →
      ∃ e, (assertDeclareIcuTemplateParametersAreValid false t o st).1
        = some e) ∧
    (∀ (t : String) (o : IcuTemplateOptions) (st : Nat)
        (m : List (String × JSValue)) (e : ValidationError),
      assertNoClosureStylePlaceholdersInIcuTemplate t = none →
      checkDescription o = none → checkMeaning o = none →
      o.get "example" = JSValue.obj m →
      assertValidPlaceholderMap "example" m
        (gatherIcuPlaceholderNames t st).1 = some e →
      (assertDeclareIcuTemplateParametersAreValid false t o st).1 = some e) ∧
    (∀ (t : String) (o : IcuTemplateOptions) (st : Nat)
        (m : List (String × JSValue)) (e : ValidationError),
      assertNoClosureStylePlaceholdersInIcuTemplate t = none →
      checkDescription o = none → checkMeaning o = none →
      checkPlaceholderMapOption "example" o
        (gatherIcuPlaceholderNames t st).1 = none →
      o.get "original_code" = JSValue.obj m →
      assertValidPlaceholderMap "original_code" m
        (gatherIcuPlaceholderNames t st).1 = some e →
      (assertDeclareIcuTemplateParametersAreValid false t o st).1 = some e) := by
  refine ⟨fun mapName m names h => avpm_some m h,
    fun mapName m names h => avpm_none m h, ?_, ?_, ?_, ?_⟩
  · intro t o st m hobj hbad
    cases hleg : assertNoClosureStylePlaceholdersInIcuTemplate t with
    | some e => exact ⟨e, by rw [validate_legacy_some o st hleg]⟩
    | none =>
      cases hd : checkDescription o with
      | some e =>
        refine ⟨e, ?_⟩
        rw [validate_legacy_none o st hleg]
        exact checkOptions_desc hd
      | none =>
        cases hmn : checkMeaning o with
        | some e =>
          refine ⟨e, ?_⟩
          rw [validate_legacy_none o st hleg]
          exact checkOptions_meaning hd hmn
        | none =>
          obtain ⟨e, he, -⟩ := avpm_some m hbad
          refine ⟨e, ?_⟩
          rw [validate_legacy_none o st hleg]
          exact checkOptions_example hd hmn
            (by rw [checkMap_of_obj _ hobj]; exact he)
  · intro t o st m hobj hbad
    cases hleg : assertNoClosureStylePlaceholdersInIcuTemplate t with
    | some e => exact ⟨e, by rw [validate_legacy_some o st hleg]⟩
    | none =>
      cases hd : checkDescription o with
      | some e =>
        refine ⟨e, ?_⟩
        rw [validate_legacy_none o st hleg]
        exact checkOptions_desc hd
      | none =>
        cases hmn : checkMeaning o with
        | some e =>
          refine ⟨e, ?_⟩
          rw [validate_legacy_none o st hleg]
          exact checkOptions_meaning hd hmn
        | none =>
          cases hec : checkPlaceholderMapOption "example" o
              (gatherIcuPlaceholderNames t st).1 with
          | some e =>
            refine ⟨e, ?_⟩
            rw [validate_legacy_none o st hleg]
            exact checkOptions_example hd hmn hec
          | none =>
            obtain ⟨e, he, -⟩ := avpm_some m hbad
            refine ⟨e, ?_⟩
            rw [validate_legacy_none o st hleg]
            exact checkOptions_oc hd hmn hec
              (by rw [checkMap_of_obj _ hobj]; exact he)
  · intro t o st m e hleg hd hmn hobj havpm
    rw [validate_legacy_none o st hleg]
    exact checkOptions_example hd hmn
      (by rw [checkMap_of_obj _ hobj]; exact havpm)
  · intro t o st m e hleg hd hmn hec hobj havpm
    rw [validate_legacy_none o st hleg]
    exact checkOptions_oc hd hmn hec
      (by rw [checkMap_of_obj _ hobj]; exact havpm)

/-- C6 (witness): a one-entry `example` map whose key is not a placeholder
name fails its map check with an error naming the map and that key. -/
theorem placeholder_map_checks_witness :
    ∃ e, assertValidPlaceholderMap "example" [("A", JSValue.str "x")] []
        = some e ∧
      ((∃ k, k ∈ [("A", JSValue.str "x")].map Prod.fst ∧
          k ∉ ([] : List String) ∧
          e = ValidationError.unknownPlaceholder "example" k) ∨
        (∃ k v, (k, v) ∈ [("A", JSValue.str "x")] ∧ v.isString = false ∧
          e = ValidationError.invalidMapValue "example" k v)) :=
  placeholder_map_checks.1 "example" [("A", JSValue.str "x")] []
    ⟨"A", JSValue.str "x", List.mem_cons_self _ _,
      Or.inl (List.not_mem_nil "A")⟩

/-- C7 (corrected, counterexample): the options record `{foo: 1}` contains
the unrecognized field `foo`, and validation does fail — but with the
no-description error, not an error naming `foo`, because the unknown-field
loop runs after all the other asserts. -/
theorem unknown_option_not_named_when_description_missing :
    "foo" ∈ (IcuTemplateOptions.mk [("foo", JSValue.num 1)]).keys ∧
    "foo" ∉ VALID_OPTIONS ∧
    (assertDeclareIcuTemplateParametersAreValid false "x"
      (IcuTemplateOptions.mk [("foo", JSValue.num 1)]) 0).1
      = some ValidationError.noDescription ∧
    ValidationError.noDescription ≠ ValidationError.unknownOption "foo" :=
  ⟨by decide, by decide, rfl, fun h => ValidationError.noConfusion h⟩

/-- C7 (amended): an options record containing a field outside the four
recognized names always makes uncompiled validation fail with some error;
and when the template check and all other option checks pass, the error is
the unknown-option error naming an unrecognized field (the first one
encountered in key order). -/
theorem unknown_option_fails (t : String) (o : IcuTemplateOptions) (st : Nat)
    (k : String) (hm : k ∈ o.keys) (hk : k ∉ VALID_OPTIONS) :
    (∃ e, (assertDeclareIcuTemplateParametersAreValid false t o st).1
      = some e) ∧
    (assertNoClosureStylePlaceholdersInIcuTemplate t = none →
      checkDescription o = none → checkMeaning o = none →
      checkPlaceholderMapOption "example" o
        (gatherIcuPlaceholderNames t st).1 = none →
      checkPlaceholderMapOption "original_code" o
        (gatherIcuPlaceholderNames t st).1 = none →
      ∃ k2, k2 ∈ o.keys ∧ k2 ∉ VALID_OPTIONS ∧
        (assertDeclareIcuTemplateParametersAreValid false t o st).1 =
          some (ValidationError.unknownOption k2)) := by
  obtain ⟨k2, hk2m, hk2n, hu⟩ := checkUnknownOptions_some hm hk
  constructor
  · cases hleg : assertNoClosureStylePlaceholdersInIcuTemplate t with
    | some e => exact ⟨e, by rw [validate_legacy_some o st hleg]⟩
    | none =>
      obtain ⟨e, he⟩ := checkOptions_isSome o (gatherIcuPlaceholderNames t st).1
        (Or.inr (Or.inr (Or.inr (Or.inr (by rw [hu]; simp)))))
      exact ⟨e, by rw [validate_legacy_none o st hleg]; exact he⟩
  · intro hleg hd hmn hec hoc
    refine ⟨k2, hk2m, hk2n, ?_⟩
    rw [validate_legacy_none o st hleg]
    show checkOptions o (gatherIcuPlaceholderNames t st).1
      = some (.unknownOption k2)
    rw [checkOptions_all_none hd hmn hec hoc, hu]

/-- C7 (witness): `{description: "d", foo: 1}` on template `"x"` — all other
checks pass, so validation fails naming the unrecognized field. -/
theorem unknown_option_fails_witness :
    (∃ e, (assertDeclareIcuTemplateParametersAreValid false "x"
      (IcuTemplateOptions.mk [("description", JSValue.str "d"),
        ("foo", JSValue.num 1)]) 0).1 = some e) ∧
    (assertNoClosureStylePlaceholdersInIcuTemplate "x" = none →
      checkDescription (IcuTemplateOptions.mk [("description", JSValue.str "d"),
        ("foo", JSValue.num 1)]) = none →
      checkMeaning (IcuTemplateOptions.mk [("description", JSValue.str "d"),
        ("foo", JSValue.num 1)]) = none →
      checkPlaceholderMapOption "example"
        (IcuTemplateOptions.mk [("description", JSValue.str "d"),
          ("foo", JSValue.num 1)])
        (gatherIcuPlaceholderNames "x" 0).1 = none →
      checkPlaceholderMapOption "original_code"
        (IcuTemplateOptions.mk [("description", JSValue.str "d"),
          ("foo", JSValue.num 1)])
        (gatherIcuPlaceholderNames "x" 0).1 = none →
      ∃ k2, k2 ∈ (IcuTemplateOptions.mk [("description", JSValue.str "d"),
          ("foo", JSValue.num 1)]).keys ∧ k2 ∉ VALID_OPTIONS ∧
        (assertDeclareIcuTemplateParametersAreValid false "x"
          (IcuTemplateOptions.mk [("description", JSValue.str "d"),
            ("foo", JSValue.num 1)]) 0).1 =
          some (ValidationError.unknownOption k2)) :=
  unknown_option_fails "x"
    (IcuTemplateOptions.mk [("description", JSValue.str "d"),
      ("foo", JSValue.num 1)]) 0 "foo" (by decide) (by decide)

/-- C8 (confirmed): with the process-wide `COMPILED` flag set,
`declareIcuTemplate` runs no checks and is a pure pass-through: for every
template string, every options record (however invalid) and every regex
state, it returns the template unchanged and leaves the state untouched. -/
theorem compiled_mode_passthrough (t : String) (o : IcuTemplateOptions)
    (st : Nat) : declareIcuTemplate true t o st = (Except.ok t, st) := rfl

/-- C9 (confirmed): if uncompiled `declareIcuTemplate` succeeds once on a
pair (starting from the module's initial regex `lastIndex` of 0), then every
repetition — each call starting from the regex state the previous call left
behind — succeeds and returns the identical template string, with the regex
state back at 0: the gather loop always ends with a null `exec`, which
resets the global regex's `lastIndex`. -/
theorem repeated_validation_idempotent (t : String) (o : IcuTemplateOptions)
    (h : ∃ s, (declareIcuTemplate false t o 0).1 = Except.ok s) :
    ∀ n, repeatedDeclare t o n = (Except.ok t, 0) := by
  obtain ⟨s, hs⟩ := h
  have h0 : declareIcuTemplate false t o 0 = (Except.ok t, 0) :=
    declare_ok_eq hs
  intro n
  induction n with
  | zero => exact h0
  | succ k ih =>
    rw [repeatedDeclare, ih]
    exact h0

/-- C9 (witness): three successive calls on the spec's example pair all
return the template with the regex state at 0. -/
theorem repeated_validation_idempotent_witness :
    repeatedDeclare "Hi, {NAME}!"
      (IcuTemplateOptions.mk [("description", JSValue.str "d")]) 2 =
      (Except.ok "Hi, {NAME}!", 0) :=
  repeated_validation_idempotent "Hi, {NAME}!"
    (IcuTemplateOptions.mk [("description", JSValue.str "d")])
    ⟨"Hi, {NAME}!", rfl⟩ 2

/-- C10 (confirmed): the legacy-placeholder check fails exactly when the
template contains `{$`, then one or more characters other than `}`, then
`}` — the content need not be a well-formed name: `"{$ !}"` fails the check,
while the unterminated `"{$NAME"` passes it. -/
theorem closure_placeholder_check_characterization :
    (∀ t : String,
      (assertNoClosureStylePlaceholdersInIcuTemplate t).isSome = true ↔
        ∃ l Y r, t.data = l ++ ('{' :: '$' :: (Y ++ ('}' :: r))) ∧
          Y ≠ [] ∧ '}' ∉ Y) ∧
    (assertNoClosureStylePlaceholdersInIcuTemplate "{$ !}").isSome = true ∧
    assertNoClosureStylePlaceholdersInIcuTemplate "\x7b$NAME" = none :=
  ⟨noClosure_isSome_iff, rfl, rfl⟩

end Messages
